import Mathlib

/-!
# Verification of the pysim5g hexagon tessellation and cell-selection core

A shallow embedding of `src/pysim5g/generate_hex.py` over exact real
arithmetic (the Python code computes with IEEE floats; we model the intended
real-valued computation, so "within floating tolerance" statements become
exact equalities).

The two `while` loops of `calculate_polygons` are embedded with an explicit
fuel parameter: `none` means the loop has not terminated within the given
number of iterations (`∀ fuel, ... = none` therefore expresses divergence),
`some polys` is the returned list of polygons.

External collaborators are modelled at their documented interfaces:
* the `rtree` spatial index: insertion keeps build order, and
  `nearest(pt, k)` returns up to `k` stored items ordered by ascending
  Euclidean distance of their stored point to the query point, ties broken
  by insertion order (the build-order/tie contract stated in the spec);
  comparing Euclidean distances is equivalent to comparing squared
  distances, so the model sorts by squared distance;
* `shapely` polygon centroids: the standard surveyor's (shoelace) centroid
  formula;
* `shapely` `Point.buffer(d).bounds`: the bounding box of the disc of
  radius `d` around the point;
* Python list indexing `xs[0]`: raises `IndexError` on an empty list,
  modelled with `Except`.
-/

namespace PySim5G

/-- `math.radians(d)`: degrees to radians. -/
noncomputable def radians (d : ℝ) : ℝ := d * Real.pi / 180

/-- One hexagon polygon as built in the inner loop of `calculate_polygons`
(lines 139–158): the 7-vertex closed ring `[p1, p2, p3, p4, p5, p6, p1]`
anchored at `(startx, starty)`. -/
def hexRing (p b w h startx starty : ℝ) : List (ℝ × ℝ) :=
  [(startx, starty + p), (startx, starty + 3 * p), (startx + b, starty + h),
    (startx + w, starty + 3 * p), (startx + w, starty + p), (startx + b, starty),
    (startx, starty + p)]

/-- The inner `while startx < endx` loop of `calculate_polygons`
(lines 138–163): append a hexagon at the current anchor, advance by `w`.
`none` = fuel exhausted while the loop condition still held. -/
noncomputable def innerLoop (p b w h endx : ℝ) :
    ℕ → ℝ → ℝ → List (List (ℝ × ℝ)) → Option (List (List (ℝ × ℝ)))
  | 0, startx, _, acc =>
      if startx < endx then none else some acc
  | fuel + 1, startx, starty, acc =>
      if startx < endx then
        innerLoop p b w h endx fuel (startx + w) starty (acc ++ [hexRing p b w h startx starty])
      else some acc

/-- The outer `while starty < endy` loop of `calculate_polygons`
(lines 130–166): stagger every even row by `xoffset = b`, run the inner
loop, advance by `yoffset = 3 * p`, increment the row counter. -/
noncomputable def outerLoop (p b w h endx endy origx : ℝ) :
    ℕ → ℝ → ℕ → List (List (ℝ × ℝ)) → Option (List (List (ℝ × ℝ)))
  | 0, starty, _, acc =>
      if starty < endy then none else some acc
  | fuel + 1, starty, row, acc =>
      if starty < endy then
        match innerLoop p b w h endx fuel
            (if row % 2 == 0 then origx + b else origx) starty acc with
        | none => none
        | some acc' => outerLoop p b w h endx endy origx fuel (starty + 3 * p) (row + 1) acc'
      else some acc

/-- `calculate_polygons(startx, starty, endx, endy, radius)` (lines 69–168):
derive the side length and layout constants, expand the rectangle outward by
one hexagon width/height on each side, then run the row/column generation
loops (row counter starts at 1, accumulator starts empty). -/
noncomputable def calculate_polygons (fuel : ℕ) (startx starty endx endy radius : ℝ) :
    Option (List (List (ℝ × ℝ))) :=
  let sl := (2 * radius) * Real.tan (Real.pi / 6)
  let p := sl * 0.5
  let b := sl * Real.cos (radians 30)
  let w := b * 2
  let h := 2 * sl
  outerLoop p b w h (endx + w) (endy + h) (startx - w) fuel (starty - h) 1 []

/-- A hexagon feature dict as built in `generate_cell_areas` (lines 308–319):
the polygon ring, its centroid, and the assigned `site_id`. -/
structure Cell where
  poly : List (ℝ × ℝ)
  centroid : ℝ × ℝ
  site_id : ℕ

/-- Signed twice-the-area of a closed ring (shoelace sum over consecutive
vertex pairs); part of the model of `shapely`'s `Polygon(...).centroid`. -/
def ringArea2 (pts : List (ℝ × ℝ)) : ℝ :=
  ((pts.zip pts.tail).map (fun ab => ab.1.1 * ab.2.2 - ab.2.1 * ab.1.2)).sum

/-- Model of `shapely`'s `Polygon(pts).centroid`: the standard surveyor's
centroid formula for a closed ring (first vertex repeated at the end). -/
noncomputable def polyCentroid (pts : List (ℝ × ℝ)) : ℝ × ℝ :=
  let a2 := ringArea2 pts
  (((pts.zip pts.tail).map
      (fun ab => (ab.1.1 + ab.2.1) * (ab.1.1 * ab.2.2 - ab.2.1 * ab.1.2))).sum / (3 * a2),
    ((pts.zip pts.tail).map
      (fun ab => (ab.1.2 + ab.2.2) * (ab.1.1 * ab.2.2 - ab.2.1 * ab.1.2))).sum / (3 * a2))

/-- The `for poly in polygon` loop of `generate_cell_areas` (lines 306–321)
with its `id_num` counter: build a `Cell` for every polygon, assigning
sequential `site_id`s starting from `n`. -/
noncomputable def assignFrom : ℕ → List (List (ℝ × ℝ)) → List Cell
  | _, [] => []
  | n, poly :: rest =>
      { poly := poly, centroid := polyCentroid poly, site_id := n } :: assignFrom (n + 1) rest

/-- The hexagon feature list of `generate_cell_areas`: ids start at 0. -/
noncomputable def assign_site_ids (polys : List (List (ℝ × ℝ))) : List Cell :=
  assignFrom 0 polys

/-- Squared Euclidean distance between two points.  The R-tree compares
(Euclidean) point distances; `Real.sqrt` is monotone, so ordering by squared
distance is the same ordering and keeps the model algebraic. -/
def sqDist (a q : ℝ × ℝ) : ℝ := (a.1 - q.1) ^ 2 + (a.2 - q.2) ^ 2

/-- Euclidean distance between two points. -/
noncomputable def euclidDist (a q : ℝ × ℝ) : ℝ := Real.sqrt (sqDist a q)

/-- Pair every cell with its insertion position in the index build loop
(lines 196–198 insert the hexagons in list order). -/
def withIdx : ℕ → List Cell → List (ℕ × Cell)
  | _, [] => []
  | n, c :: rest => (n, c) :: withIdx (n + 1) rest

/-- Query order of the R-tree `nearest` model: ascending squared distance of
the stored centroid to the query point, ties broken by insertion order. -/
def nearerThan (q : ℝ × ℝ) (a c : ℕ × Cell) : Prop :=
  sqDist a.2.centroid q < sqDist c.2.centroid q ∨
    (sqDist a.2.centroid q = sqDist c.2.centroid q ∧ a.1 ≤ c.1)

noncomputable instance nearerThanDecidable (q : ℝ × ℝ) : DecidableRel (nearerThan q) :=
  fun _ _ => by unfold nearerThan; exact inferInstance

/-- Model of `idx.nearest(point, k, objects='raw')` over an index holding
every cell's centroid: the first `k` cells in query order. -/
noncomputable def nearest (cells : List Cell) (q : ℝ × ℝ) (k : ℕ) : List Cell :=
  ((List.insertionSort (nearerThan q) (withIdx 0 cells)).map Prod.snd).take k

/-- The only runtime failure reachable in the selection code: Python's
`IndexError` from `xs[0]` on an empty list. -/
inductive PyErr where
  | indexError
  deriving DecidableEq

/-- The index build loop of `find_closest_cell_areas` (lines 194–198): every
hexagon's centroid is inserted, in list order.  The built index is modelled
by the insertion-ordered cell list itself. -/
def buildIndex (hexagons : List Cell) : List Cell := hexagons

/-- `find_closest_cell_areas(hexagons, geom_shape)` (lines 171–226): build
the index, query the single nearest cell to the transmitter, re-query the 7
nearest cells to that cell's polygon centroid, return
`([all_closest_sites[0]], all_closest_sites[1:7])`. -/
noncomputable def find_closest_cell_areas (hexagons : List Cell) (geom_shape : ℝ × ℝ) :
    Except PyErr (List Cell × List Cell) :=
  let idx := buildIndex hexagons
  match (nearest idx geom_shape 1).head? with
  | none => Except.error PyErr.indexError
  | some cell_area =>
    let closest_cell_area_centroid := polyCentroid cell_area.poly
    let all_closest_sites := nearest idx closest_cell_area_centroid 7
    let interfering_cell_areas := (all_closest_sites.drop 1).take 6
    match all_closest_sites.head? with
    | none => Except.error PyErr.indexError
    | some c0 => Except.ok ([c0], interfering_cell_areas)

/-- `site_id` property of a produced site: the string `'transmitter'` or an
interferer's numeric id. -/
inductive SiteId where
  | transmitter
  | numbered (n : ℕ)
  deriving DecidableEq

/-- A site feature: a point location tagged with a `site_id` property. -/
structure Site where
  loc : ℝ × ℝ
  site_id : SiteId

/-- `find_site_locations(cell_area, interfering_cell_areas)` (lines 229–273):
the transmitter site at the serving polygon's centroid, and one site per
interfering cell at its stored centroid. -/
noncomputable def find_site_locations (cell_area interfering_cell_areas : List Cell) :
    Except PyErr (List Site × List Site) :=
  match cell_area.head? with
  | none => Except.error PyErr.indexError
  | some c =>
    Except.ok ([{ loc := polyCentroid c.poly, site_id := SiteId.transmitter }],
      interfering_cell_areas.map
        (fun ic => { loc := ic.centroid, site_id := SiteId.numbered ic.site_id }))

/-- Model of `Point(pt).buffer(d).bounds`: the bounding box of the disc of
radius `d` centred at `pt`, as `(minx, miny, maxx, maxy)`. -/
def bufferBounds (pt : ℝ × ℝ) (d : ℝ) : ℝ × ℝ × ℝ × ℝ :=
  (pt.1 - d, pt.2 - d, pt.1 + d, pt.2 + d)

/-- `generate_cell_areas(point, cell_radius)` (lines 276–327): buffer the
transmitter point by `2 * cell_radius`, tessellate the buffer's bounds,
assign sequential site ids, and select serving plus interfering cells. -/
noncomputable def generate_cell_areas (fuel : ℕ) (point : ℝ × ℝ) (cell_radius : ℝ) :
    Option (Except PyErr (List Cell × List Cell)) :=
  let bb := bufferBounds point (cell_radius * 2)
  (calculate_polygons fuel bb.1 bb.2.1 bb.2.2.1 bb.2.2.2 cell_radius).map
    (fun polys => find_closest_cell_areas (assign_site_ids polys) point)

/-- `produce_sites_and_cell_areas(unprojected_point, cell_radius)`
(lines 330–361): reproject via the external projection collaborator `proj`,
generate cell areas, extract site locations, return all four collections. -/
noncomputable def produce_sites_and_cell_areas (fuel : ℕ) (proj : ℝ × ℝ → ℝ × ℝ)
    (unprojected_point : ℝ × ℝ) (cell_radius : ℝ) :
    Option (Except PyErr (List Site × List Site × List Cell × List Cell)) :=
  let point := proj unprojected_point
  (generate_cell_areas fuel point cell_radius).map
    (fun res => res.bind (fun ci =>
      (find_site_locations ci.1 ci.2).map (fun ti => (ti.1, ti.2, ci.1, ci.2))))

/-- Half-space description of the (closed) hexagon whose vertex ring is
`hexRing p b w h x y` with `w = 2 * b` and `h = 4 * p`: the intersection of
the six edge half-planes of the pointy-top hexagon anchored at `(x, y)`. -/
def inHexagon (p b x y : ℝ) (q : ℝ × ℝ) : Prop :=
  x ≤ q.1 ∧ q.1 ≤ x + 2 * b ∧
    p * x + b * y + p * b ≤ p * q.1 + b * q.2 ∧
    b * y - p * x - p * b ≤ b * q.2 - p * q.1 ∧
    b * q.2 - p * q.1 ≤ b * y - p * x + 3 * p * b ∧
    p * q.1 + b * q.2 ≤ p * x + b * y + 5 * p * b

/-- The x-coordinate at which a generation row starts: even-numbered rows
are staggered by `xoffset = b` (lines 132–136). -/
def rowStartX (b origx : ℝ) (row : ℕ) : ℝ :=
  if row % 2 == 0 then origx + b else origx

/-- A concrete closed unit-square ring (test polygon for witnesses). -/
def sqPolyA : List (ℝ × ℝ) := [(0, 0), (1, 0), (1, 1), (0, 1), (0, 0)]

/-- A concrete closed unit-square ring shifted by 4 on the x-axis. -/
def sqPolyB : List (ℝ × ℝ) := [(4, 0), (5, 0), (5, 1), (4, 1), (4, 0)]

/-- A concrete closed unit-square ring shifted by 8 on the x-axis. -/
def sqPolyC : List (ℝ × ℝ) := [(8, 0), (9, 0), (9, 1), (8, 1), (8, 0)]

/-! ## Basic facts about the embedding -/

lemma innerLoop_none_of_w_zero (p b h endx startx starty : ℝ) (hx : startx < endx) :
    ∀ (fuel : ℕ) (acc : List (List (ℝ × ℝ))),
      innerLoop p b 0 h endx fuel startx starty acc = none := by
  intro fuel
  induction fuel with
  | zero => intro acc; simp [innerLoop, hx]
  | succ n ih =>
    intro acc
    simp only [innerLoop, if_pos hx, add_zero]
    exact ih _

lemma outerLoop_none_of_w_zero (p b h endx endy origx starty : ℝ) (row : ℕ)
    (hy : starty < endy) (hx1 : origx < endx) (hx2 : origx + b < endx) :
    ∀ (fuel : ℕ) (acc : List (List (ℝ × ℝ))),
      outerLoop p b 0 h endx endy origx fuel starty row acc = none := by
  intro fuel acc
  have hstart : (if row % 2 == 0 then origx + b else origx) < endx := by
    by_cases hrow : row % 2 == 0
    · simpa [hrow] using hx2
    · simpa [hrow] using hx1
  cases fuel with
  | zero => simp [outerLoop, hy]
  | succ n =>
    simp only [outerLoop, if_pos hy]
    rw [innerLoop_none_of_w_zero p b h endx _ starty hstart n acc]

lemma site_id_ge_of_mem_assignFrom :
    ∀ (polys : List (List (ℝ × ℝ))) (m : ℕ) (c : Cell),
      c ∈ assignFrom m polys → m ≤ c.site_id := by
  intro polys
  induction polys with
  | nil => intro m c hc; simp [assignFrom] at hc
  | cons poly rest ih =>
    intro m c hc
    rcases (List.mem_cons).1 hc with hc | hc
    · subst hc; exact le_refl _
    · exact le_trans (Nat.le_succ m) (ih (m + 1) c hc)

lemma pairwise_lt_assignFrom :
    ∀ (polys : List (List (ℝ × ℝ))) (n : ℕ),
      ((assignFrom n polys).map Cell.site_id).Pairwise (· < ·) := by
  intro polys
  induction polys with
  | nil => intro n; simp [assignFrom]
  | cons poly rest ih =>
    intro n
    simp only [assignFrom, List.map_cons]
    refine List.Pairwise.cons ?_ (ih (n + 1))
    intro y hy
    rcases List.mem_map.1 hy with ⟨c, hc, rfl⟩
    exact lt_of_lt_of_le (Nat.lt_succ_self n) (site_id_ge_of_mem_assignFrom rest (n + 1) c hc)

lemma length_assignFrom :
    ∀ (polys : List (List (ℝ × ℝ))) (n : ℕ), (assignFrom n polys).length = polys.length := by
  intro polys
  induction polys with
  | nil => intro n; simp [assignFrom]
  | cons poly rest ih => intro n; simp [assignFrom, ih]

lemma centroid_of_mem_assignFrom :
    ∀ (polys : List (List (ℝ × ℝ))) (n : ℕ) (c : Cell),
      c ∈ assignFrom n polys → c.centroid = polyCentroid c.poly := by
  intro polys
  induction polys with
  | nil => intro n c hc; simp [assignFrom] at hc
  | cons poly rest ih =>
    intro n c hc
    rcases (List.mem_cons).1 hc with hc | hc
    · subst hc; rfl
    · exact ih (n + 1) c hc

lemma map_snd_withIdx : ∀ (l : List Cell) (n : ℕ), (withIdx n l).map Prod.snd = l := by
  intro l
  induction l with
  | nil => intro n; simp [withIdx]
  | cons c rest ih => intro n; simp [withIdx, ih]

lemma length_withIdx (l : List Cell) (n : ℕ) : (withIdx n l).length = l.length := by
  have := congrArg List.length (map_snd_withIdx l n)
  simpa using this

lemma fst_ge_of_mem_withIdx :
    ∀ (l : List Cell) (n : ℕ) (pr : ℕ × Cell), pr ∈ withIdx n l → n ≤ pr.1 := by
  intro l
  induction l with
  | nil => intro n pr h; simp [withIdx] at h
  | cons c rest ih =>
    intro n pr h
    rcases (List.mem_cons).1 h with h | h
    · subst h; exact le_refl _
    · exact le_trans (Nat.le_succ n) (ih (n + 1) pr h)

lemma snd_of_mem_withIdx :
    ∀ (l : List Cell) (n : ℕ) (pr : ℕ × Cell), pr ∈ withIdx n l → pr.2 ∈ l := by
  intro l
  induction l with
  | nil => intro n pr h; simp [withIdx] at h
  | cons c rest ih =>
    intro n pr h
    rcases (List.mem_cons).1 h with h | h
    · subst h; exact List.mem_cons_self _ _
    · exact List.mem_cons_of_mem _ (ih (n + 1) pr h)

lemma exists_mem_withIdx :
    ∀ (l : List Cell) (c : Cell), c ∈ l → ∀ n : ℕ, ∃ i, (i, c) ∈ withIdx n l := by
  intro l
  induction l with
  | nil => intro c hc; simp at hc
  | cons d rest ih =>
    intro c hc n
    rcases (List.mem_cons).1 hc with hc | hc
    · subst hc; exact ⟨n, List.mem_cons_self _ _⟩
    · rcases ih c hc (n + 1) with ⟨i, hi⟩
      exact ⟨i, List.mem_cons_of_mem _ hi⟩

lemma mem_withIdx_fst_inj :
    ∀ (l : List Cell) (n : ℕ) (a c : ℕ × Cell),
      a ∈ withIdx n l → c ∈ withIdx n l → a.1 = c.1 → a = c := by
  intro l
  induction l with
  | nil => intro n a c ha; simp [withIdx] at ha
  | cons d rest ih =>
    intro n a c ha hc hfst
    rcases (List.mem_cons).1 ha with ha | ha <;> rcases (List.mem_cons).1 hc with hc | hc
    · subst ha; subst hc; rfl
    · exfalso
      have := fst_ge_of_mem_withIdx rest (n + 1) c hc
      subst ha
      omega
    · exfalso
      have := fst_ge_of_mem_withIdx rest (n + 1) a ha
      subst hc
      omega
    · exact ih (n + 1) a c ha hc hfst

lemma site_id_of_mem_withIdx_assignFrom :
    ∀ (polys : List (List (ℝ × ℝ))) (k : ℕ) (pr : ℕ × Cell),
      pr ∈ withIdx k (assignFrom k polys) → pr.2.site_id = pr.1 := by
  intro polys
  induction polys with
  | nil => intro k pr h; simp [assignFrom, withIdx] at h
  | cons poly rest ih =>
    intro k pr h
    rcases (List.mem_cons).1 h with h | h
    · subst h; rfl
    · exact ih (k + 1) pr h

lemma sqDist_nonneg (a q : ℝ × ℝ) : 0 ≤ sqDist a q := by
  unfold sqDist
  positivity

lemma sqDist_self (a : ℝ × ℝ) : sqDist a a = 0 := by
  unfold sqDist
  ring

lemma eq_of_sqDist_eq_zero {a q : ℝ × ℝ} (h : sqDist a q = 0) : a = q := by
  unfold sqDist at h
  have h1 : (a.1 - q.1) ^ 2 = 0 ∧ (a.2 - q.2) ^ 2 = 0 := by
    constructor <;> nlinarith [sq_nonneg (a.1 - q.1), sq_nonneg (a.2 - q.2)]
  have hx : a.1 = q.1 := by nlinarith [h1.1]
  have hy : a.2 = q.2 := by nlinarith [h1.2]
  exact Prod.ext hx hy

lemma nearerThan_refl (q : ℝ × ℝ) (a : ℕ × Cell) : nearerThan q a a :=
  Or.inr ⟨rfl, le_refl _⟩

instance nearerThanIsTotal (q : ℝ × ℝ) : IsTotal (ℕ × Cell) (nearerThan q) := by
  constructor
  intro a c
  unfold nearerThan
  rcases lt_trichotomy (sqDist a.2.centroid q) (sqDist c.2.centroid q) with h | h | h
  · exact Or.inl (Or.inl h)
  · rcases le_total a.1 c.1 with hi | hi
    · exact Or.inl (Or.inr ⟨h, hi⟩)
    · exact Or.inr (Or.inr ⟨h.symm, hi⟩)
  · exact Or.inr (Or.inl h)

instance nearerThanIsTrans (q : ℝ × ℝ) : IsTrans (ℕ × Cell) (nearerThan q) := by
  constructor
  intro a c e hac hce
  unfold nearerThan at hac hce ⊢
  rcases hac with hac | ⟨hac, hac'⟩ <;> rcases hce with hce | ⟨hce, hce'⟩
  · exact Or.inl (lt_trans hac hce)
  · exact Or.inl (hce ▸ hac)
  · exact Or.inl (hac ▸ hce)
  · exact Or.inr ⟨hac.trans hce, le_trans hac' hce'⟩

lemma insertionSort_head_min (q : ℝ × ℝ) (l : List (ℕ × Cell)) (hl : l ≠ []) :
    ∃ x rest, List.insertionSort (nearerThan q) l = x :: rest ∧ x ∈ l ∧
      ∀ y ∈ l, nearerThan q x y := by
  cases hS : List.insertionSort (nearerThan q) l with
  | nil =>
    exfalso
    have hlen := List.length_insertionSort (nearerThan q) l
    rw [hS] at hlen
    exact hl (List.length_eq_zero.1 hlen.symm)
  | cons x rest =>
    have hx : x ∈ l := by
      have : x ∈ List.insertionSort (nearerThan q) l := by
        rw [hS]; exact List.mem_cons_self _ _
      exact (List.mem_insertionSort (nearerThan q)).1 this
    have hsorted : List.Sorted (nearerThan q) (x :: rest) := by
      have := List.sorted_insertionSort (nearerThan q) l
      rwa [hS] at this
    refine ⟨x, rest, rfl, hx, ?_⟩
    intro y hy
    have hy' : y ∈ x :: rest := by
      rw [← hS]
      exact (List.mem_insertionSort (nearerThan q)).2 hy
    rcases (List.mem_cons).1 hy' with hy' | hy'
    · subst hy'; exact nearerThan_refl q y
    · exact List.rel_of_sorted_cons hsorted y hy'

/-! ## Tessellation loop lemmas: termination, membership, shape -/

lemma innerLoop_term (p b w h endx : ℝ) :
    ∀ (N fuel : ℕ) (startx starty : ℝ) (acc : List (List (ℝ × ℝ))),
      endx ≤ startx + N * w → N ≤ fuel →
      ∃ out, innerLoop p b w h endx fuel startx starty acc = some out := by
  intro N
  induction N with
  | zero =>
    intro fuel startx starty acc hle _
    have hnot : ¬ startx < endx := by
      push_cast at hle
      simp only [zero_mul, add_zero] at hle
      exact not_lt.2 hle
    cases fuel with
    | zero => exact ⟨acc, by simp [innerLoop, hnot]⟩
    | succ f => exact ⟨acc, by simp [innerLoop, hnot]⟩
  | succ N ih =>
    intro fuel startx starty acc hle hfuel
    cases fuel with
    | zero => omega
    | succ f =>
      by_cases hlt : startx < endx
      · simp only [innerLoop, if_pos hlt]
        apply ih f (startx + w) starty _ _ (by omega)
        push_cast at hle ⊢
        linarith [hle]
      · exact ⟨acc, by simp [innerLoop, hlt]⟩

lemma outerLoop_term (p b w h endx endy origx : ℝ) (NC : ℕ)
    (hcol1 : endx ≤ origx + NC * w) (hcol2 : endx ≤ origx + b + NC * w) :
    ∀ (NR fuel : ℕ) (starty : ℝ) (row : ℕ) (acc : List (List (ℝ × ℝ))),
      endy ≤ starty + NR * (3 * p) → NR + NC ≤ fuel →
      ∃ out, outerLoop p b w h endx endy origx fuel starty row acc = some out := by
  intro NR
  induction NR with
  | zero =>
    intro fuel starty row acc hle _
    have hnot : ¬ starty < endy := by
      push_cast at hle
      simp only [zero_mul, add_zero] at hle
      exact not_lt.2 hle
    cases fuel with
    | zero => exact ⟨acc, by simp [outerLoop, hnot]⟩
    | succ f => exact ⟨acc, by simp [outerLoop, hnot]⟩
  | succ NR ih =>
    intro fuel starty row acc hle hfuel
    cases fuel with
    | zero => omega
    | succ f =>
      by_cases hlt : starty < endy
      · simp only [outerLoop, if_pos hlt]
        have hcol : endx ≤ (if row % 2 == 0 then origx + b else origx) + NC * w := by
          by_cases hrow : row % 2 == 0
          · simpa [hrow] using hcol2
          · simpa [hrow] using hcol1
        obtain ⟨acc', hacc'⟩ :=
          innerLoop_term p b w h endx NC f
            (if row % 2 == 0 then origx + b else origx) starty acc hcol (by omega)
        rw [hacc']
        apply ih f (starty + 3 * p) (row + 1) acc' _ (by omega)
        push_cast at hle ⊢
        linarith [hle]
      · exact ⟨acc, by simp [outerLoop, hlt]⟩

lemma innerLoop_mem (p b w h endx : ℝ) (hw : 0 ≤ w) :
    ∀ (fuel : ℕ) (startx starty : ℝ) (acc out : List (List (ℝ × ℝ))),
      innerLoop p b w h endx fuel startx starty acc = some out →
      (∀ pl ∈ acc, pl ∈ out) ∧
      ∀ j : ℕ, startx + j * w < endx →
        hexRing p b w h (startx + j * w) starty ∈ out := by
  intro fuel
  induction fuel with
  | zero =>
    intro startx starty acc out hrun
    by_cases hlt : startx < endx
    · simp [innerLoop, hlt] at hrun
    · simp only [innerLoop, if_neg hlt, Option.some.injEq] at hrun
      subst hrun
      refine ⟨fun pl hpl => hpl, ?_⟩
      intro j hj
      exfalso
      have : (0 : ℝ) ≤ j * w := mul_nonneg (Nat.cast_nonneg j) hw
      have := not_lt.1 hlt
      linarith
  | succ f ih =>
    intro startx starty acc out hrun
    by_cases hlt : startx < endx
    · simp only [innerLoop, if_pos hlt] at hrun
      obtain ⟨hacc, hjs⟩ := ih (startx + w) starty
        (acc ++ [hexRing p b w h startx starty]) out hrun
      constructor
      · intro pl hpl
        exact hacc pl (List.mem_append_left _ hpl)
      · intro j hj
        cases j with
        | zero =>
          have e0 : startx + (0 : ℕ) * w = startx := by push_cast; ring
          rw [e0]
          exact hacc _ (List.mem_append_right _ (List.mem_singleton_self _))
        | succ j' =>
          have e1 : startx + ((j' + 1 : ℕ) : ℝ) * w = (startx + w) + j' * w := by
            push_cast
            ring
          rw [e1] at hj ⊢
          exact hjs j' hj
    · simp only [innerLoop, if_neg hlt, Option.some.injEq] at hrun
      subst hrun
      refine ⟨fun pl hpl => hpl, ?_⟩
      intro j hj
      exfalso
      have : (0 : ℝ) ≤ j * w := mul_nonneg (Nat.cast_nonneg j) hw
      have := not_lt.1 hlt
      linarith

lemma outerLoop_mem (p b w h endx endy origx : ℝ) (hp : 0 ≤ p) (hw : 0 ≤ w) :
    ∀ (fuel : ℕ) (starty : ℝ) (row : ℕ) (acc out : List (List (ℝ × ℝ))),
      outerLoop p b w h endx endy origx fuel starty row acc = some out →
      (∀ pl ∈ acc, pl ∈ out) ∧
      ∀ k j : ℕ, starty + k * (3 * p) < endy →
        rowStartX b origx (row + k) + j * w < endx →
        hexRing p b w h (rowStartX b origx (row + k) + j * w) (starty + k * (3 * p)) ∈ out := by
  intro fuel
  induction fuel with
  | zero =>
    intro starty row acc out hrun
    by_cases hlt : starty < endy
    · simp [outerLoop, hlt] at hrun
    · simp only [outerLoop, if_neg hlt, Option.some.injEq] at hrun
      subst hrun
      refine ⟨fun pl hpl => hpl, ?_⟩
      intro k j hk _
      exfalso
      have h1 : (0 : ℝ) ≤ k * (3 * p) := mul_nonneg (Nat.cast_nonneg k) (by linarith)
      have := not_lt.1 hlt
      linarith
  | succ f ih =>
    intro starty row acc out hrun
    by_cases hlt : starty < endy
    · simp only [outerLoop, if_pos hlt] at hrun
      cases hinner : innerLoop p b w h endx f
          (if row % 2 == 0 then origx + b else origx) starty acc with
      | none => rw [hinner] at hrun; exact absurd hrun (by simp)
      | some acc' =>
        rw [hinner] at hrun
        obtain ⟨hacc', hrows⟩ := ih (starty + 3 * p) (row + 1) acc' out hrun
        obtain ⟨haccinner, hcols⟩ := innerLoop_mem p b w h endx hw f
          (if row % 2 == 0 then origx + b else origx) starty acc acc' hinner
        constructor
        · intro pl hpl
          exact hacc' pl (haccinner pl hpl)
        · intro k j hk hj
          cases k with
          | zero =>
            have e0 : starty + ((0 : ℕ) : ℝ) * (3 * p) = starty := by push_cast; ring
            rw [e0] at hk ⊢
            rw [Nat.add_zero] at hj ⊢
            exact hacc' _ (hcols j (by simpa [rowStartX] using hj))
          | succ k' =>
            have e1 : starty + ((k' + 1 : ℕ) : ℝ) * (3 * p) =
                (starty + 3 * p) + (k' : ℝ) * (3 * p) := by
              push_cast
              ring
            have e2 : row + (k' + 1) = (row + 1) + k' := by omega
            rw [e1] at hk ⊢
            rw [e2] at hj ⊢
            exact hrows k' j hk hj
    · simp only [outerLoop, if_neg hlt, Option.some.injEq] at hrun
      subst hrun
      refine ⟨fun pl hpl => hpl, ?_⟩
      intro k j hk _
      exfalso
      have h1 : (0 : ℝ) ≤ k * (3 * p) := mul_nonneg (Nat.cast_nonneg k) (by linarith)
      have := not_lt.1 hlt
      linarith

lemma innerLoop_shape (p b w h endx : ℝ) :
    ∀ (fuel : ℕ) (startx starty : ℝ) (acc out : List (List (ℝ × ℝ))),
      innerLoop p b w h endx fuel startx starty acc = some out →
      ∀ pl ∈ out, pl ∈ acc ∨ ∃ x y, pl = hexRing p b w h x y := by
  intro fuel
  induction fuel with
  | zero =>
    intro startx starty acc out hrun pl hpl
    by_cases hlt : startx < endx
    · simp [innerLoop, hlt] at hrun
    · simp only [innerLoop, if_neg hlt, Option.some.injEq] at hrun
      subst hrun
      exact Or.inl hpl
  | succ f ih =>
    intro startx starty acc out hrun pl hpl
    by_cases hlt : startx < endx
    · simp only [innerLoop, if_pos hlt] at hrun
      rcases ih (startx + w) starty _ out hrun pl hpl with hin | hhex
      · rcases List.mem_append.1 hin with hin | hin
        · exact Or.inl hin
        · exact Or.inr ⟨startx, starty, List.mem_singleton.1 hin⟩
      · exact Or.inr hhex
    · simp only [innerLoop, if_neg hlt, Option.some.injEq] at hrun
      subst hrun
      exact Or.inl hpl

lemma outerLoop_shape (p b w h endx endy origx : ℝ) :
    ∀ (fuel : ℕ) (starty : ℝ) (row : ℕ) (acc out : List (List (ℝ × ℝ))),
      outerLoop p b w h endx endy origx fuel starty row acc = some out →
      ∀ pl ∈ out, pl ∈ acc ∨ ∃ x y, pl = hexRing p b w h x y := by
  intro fuel
  induction fuel with
  | zero =>
    intro starty row acc out hrun pl hpl
    by_cases hlt : starty < endy
    · simp [outerLoop, hlt] at hrun
    · simp only [outerLoop, if_neg hlt, Option.some.injEq] at hrun
      subst hrun
      exact Or.inl hpl
  | succ f ih =>
    intro starty row acc out hrun pl hpl
    by_cases hlt : starty < endy
    · simp only [outerLoop, if_pos hlt] at hrun
      cases hinner : innerLoop p b w h endx f
          (if row % 2 == 0 then origx + b else origx) starty acc with
      | none => rw [hinner] at hrun; exact absurd hrun (by simp)
      | some acc' =>
        rw [hinner] at hrun
        rcases ih (starty + 3 * p) (row + 1) acc' out hrun pl hpl with hin | hhex
        · exact innerLoop_shape p b w h endx f _ starty acc acc' hinner pl hin
        · exact Or.inr hhex
    · simp only [outerLoop, if_neg hlt, Option.some.injEq] at hrun
      subst hrun
      exact Or.inl hpl

/-- Full characterisation of `find_closest_cell_areas` on a non-empty
tessellation with sequentially assigned site ids: it succeeds; the returned
serving cell is the head of the first nearest query; the overwrite by the
second query (at the serving cell's own polygon centroid) preserves it; the
interferer list is `all_closest_sites[1:7]`, has `min 6 (n-1)` elements and
excludes the serving cell; and the serving cell minimises the squared
distance to the transmitter with ties broken by insertion order. -/
lemma find_closest_spec (polys : List (List (ℝ × ℝ))) (t : ℝ × ℝ) (hne : polys ≠ []) :
    ∃ (w : Cell) (ia : List Cell),
      find_closest_cell_areas (assign_site_ids polys) t = Except.ok ([w], ia) ∧
      nearest (assign_site_ids polys) t 1 = [w] ∧
      (nearest (assign_site_ids polys) (polyCentroid w.poly) 7).head? = some w ∧
      ia = ((nearest (assign_site_ids polys) (polyCentroid w.poly) 7).drop 1).take 6 ∧
      w ∈ assign_site_ids polys ∧
      (∀ c ∈ assign_site_ids polys, sqDist w.centroid t ≤ sqDist c.centroid t) ∧
      (∀ c ∈ assign_site_ids polys,
        sqDist c.centroid t = sqDist w.centroid t → w.site_id ≤ c.site_id) ∧
      ia.length = min 6 ((assign_site_ids polys).length - 1) ∧
      w ∉ ia := by
  have hclen : (assign_site_ids polys).length = polys.length := length_assignFrom polys 0
  have hcne : assign_site_ids polys ≠ [] := by
    intro h
    apply hne
    rw [h] at hclen
    exact List.length_eq_zero.1 hclen.symm
  have hEne : withIdx 0 (assign_site_ids polys) ≠ [] := by
    intro h
    apply hcne
    have := congrArg List.length h
    rw [length_withIdx] at this
    exact List.length_eq_zero.1 this
  obtain ⟨w1, rest1, hS1, hw1E, hmin1⟩ :=
    insertionSort_head_min t (withIdx 0 (assign_site_ids polys)) hEne
  have hn1 : nearest (assign_site_ids polys) t 1 = [w1.2] := by
    unfold nearest
    rw [hS1]
    rfl
  have hw1cell : w1.2 ∈ assign_site_ids polys :=
    snd_of_mem_withIdx _ 0 w1 hw1E
  have hw1cent : w1.2.centroid = polyCentroid w1.2.poly :=
    centroid_of_mem_assignFrom polys 0 w1.2 hw1cell
  obtain ⟨c0, rest2, hS2, hc0E, hmin2⟩ :=
    insertionSort_head_min (polyCentroid w1.2.poly) (withIdx 0 (assign_site_ids polys)) hEne
  have hzero : sqDist w1.2.centroid (polyCentroid w1.2.poly) = 0 := by
    rw [← hw1cent]
    exact sqDist_self _
  have hc0z : sqDist c0.2.centroid (polyCentroid w1.2.poly) = 0 ∧ c0.1 ≤ w1.1 := by
    rcases hmin2 w1 hw1E with h1 | ⟨h1, h1'⟩
    · exfalso
      rw [hzero] at h1
      exact absurd h1 (not_lt.2 (sqDist_nonneg _ _))
    · exact ⟨h1.trans hzero, h1'⟩
  have hcc : c0.2.centroid = w1.2.centroid :=
    (eq_of_sqDist_eq_zero hc0z.1).trans hw1cent.symm
  have hW1le : w1.1 ≤ c0.1 := by
    rcases hmin1 c0 hc0E with h2 | ⟨h2, h2'⟩
    · exfalso
      rw [hcc] at h2
      exact lt_irrefl _ h2
    · exact h2'
  have hc0w1 : c0 = w1 :=
    mem_withIdx_fst_inj _ 0 c0 w1 hc0E hw1E (le_antisymm hc0z.2 hW1le)
  subst hc0w1
  have hn7 : nearest (assign_site_ids polys) (polyCentroid c0.2.poly) 7 =
      c0.2 :: (rest2.map Prod.snd).take 6 := by
    unfold nearest
    rw [hS2]
    rfl
  have hhead7 : (nearest (assign_site_ids polys) (polyCentroid c0.2.poly) 7).head? =
      some c0.2 := by
    rw [hn7]
    rfl
  have hfc : find_closest_cell_areas (assign_site_ids polys) t =
      Except.ok ([c0.2],
        ((nearest (assign_site_ids polys) (polyCentroid c0.2.poly) 7).drop 1).take 6) := by
    simp only [find_closest_cell_areas, buildIndex, hn1, List.head?_cons, hhead7]
  have hmind : ∀ c ∈ assign_site_ids polys, sqDist c0.2.centroid t ≤ sqDist c.centroid t := by
    intro c hc
    obtain ⟨i, hi⟩ := exists_mem_withIdx _ c hc 0
    rcases hmin1 (i, c) hi with h | ⟨h, _⟩
    · exact le_of_lt h
    · exact le_of_eq h
  have htie : ∀ c ∈ assign_site_ids polys,
      sqDist c.centroid t = sqDist c0.2.centroid t → c0.2.site_id ≤ c.site_id := by
    intro c hc heq
    obtain ⟨i, hi⟩ := exists_mem_withIdx _ c hc 0
    have hidx : c0.1 ≤ i := by
      rcases hmin1 (i, c) hi with h | ⟨_, h'⟩
      · exfalso
        rw [heq] at h
        exact lt_irrefl _ h
      · exact h'
    have hwid : c0.2.site_id = c0.1 := site_id_of_mem_withIdx_assignFrom polys 0 c0 hw1E
    have hcid : c.site_id = i := site_id_of_mem_withIdx_assignFrom polys 0 (i, c) hi
    rw [hwid, hcid]
    exact hidx
  have hr2len : rest2.length = (assign_site_ids polys).length - 1 := by
    have hl := List.length_insertionSort
      (nearerThan (polyCentroid c0.2.poly)) (withIdx 0 (assign_site_ids polys))
    rw [hS2, length_withIdx] at hl
    simp only [List.length_cons] at hl
    omega
  have hlen_ia :
      (((nearest (assign_site_ids polys) (polyCentroid c0.2.poly) 7).drop 1).take 6).length =
        min 6 ((assign_site_ids polys).length - 1) := by
    rw [hn7]
    simp only [List.drop_succ_cons, List.drop_zero, List.length_take, List.length_map, hr2len]
    omega
  have hnodupc : (assign_site_ids polys).Nodup :=
    List.Nodup.of_map Cell.site_id ((pairwise_lt_assignFrom polys 0).imp (fun h => ne_of_lt h))
  have hnodupS2 : (c0.2 :: rest2.map Prod.snd).Nodup := by
    have hperm0 : List.Perm
        (List.insertionSort (nearerThan (polyCentroid c0.2.poly))
          (withIdx 0 (assign_site_ids polys)))
        (withIdx 0 (assign_site_ids polys)) :=
      List.perm_insertionSort _ _
    rw [hS2] at hperm0
    have hperm : List.Perm ((c0 :: rest2).map Prod.snd)
        ((withIdx 0 (assign_site_ids polys)).map Prod.snd) := hperm0.map _
    rw [map_snd_withIdx] at hperm
    simpa using hperm.nodup_iff.2 hnodupc
  have hw_notin :
      c0.2 ∉ ((nearest (assign_site_ids polys) (polyCentroid c0.2.poly) 7).drop 1).take 6 := by
    rw [hn7]
    intro hmem
    simp only [List.drop_succ_cons, List.drop_zero] at hmem
    have h1 : c0.2 ∈ (rest2.map Prod.snd).take 6 := List.take_subset _ _ hmem
    have h2 : c0.2 ∈ rest2.map Prod.snd := List.take_subset _ _ h1
    exact (List.nodup_cons.1 hnodupS2).1 h2
  exact ⟨c0.2, _, hfc, hn1, hhead7, rfl, hw1cell, hmind, htie, hlen_ia, hw_notin⟩

/-- `calculate_polygons` is the outer generation loop run on the expanded
rectangle with the derived layout constants (definitional unfolding). -/
lemma calculate_polygons_as_outerLoop (fuel : ℕ) (sx sy ex ey r : ℝ) :
    calculate_polygons fuel sx sy ex ey r =
      outerLoop ((2 * r) * Real.tan (Real.pi / 6) * 0.5)
        ((2 * r) * Real.tan (Real.pi / 6) * Real.cos (radians 30))
        ((2 * r) * Real.tan (Real.pi / 6) * Real.cos (radians 30) * 2)
        (2 * ((2 * r) * Real.tan (Real.pi / 6)))
        (ex + (2 * r) * Real.tan (Real.pi / 6) * Real.cos (radians 30) * 2)
        (ey + 2 * ((2 * r) * Real.tan (Real.pi / 6)))
        (sx - (2 * r) * Real.tan (Real.pi / 6) * Real.cos (radians 30) * 2)
        fuel (sy - 2 * ((2 * r) * Real.tan (Real.pi / 6))) 1 [] := rfl

/-! ## Claim theorems (first batch) -/

/-- C1: with `radius = 0` and the non-degenerate rectangle `(0,0)-(1,1)`
the tessellator raises no error and produces no result: for every amount of
fuel the generation loops are still running (the side length, the row and
the column advances are all `0`, so neither loop can make progress).  The
code never checks the radius and has no `ConfigurationError`. -/
theorem calculate_polygons_radius_zero_diverges :
    (∀ fuel : ℕ, calculate_polygons fuel 0 0 1 1 0 = none) ∧
      calculate_polygons 1 0 0 1 1 (-1) = some [] := by
  constructor
  · intro fuel
    have h0 : (2 * (0 : ℝ)) * Real.tan (Real.pi / 6) = 0 := by ring
    simp only [calculate_polygons, h0]
    norm_num
    exact outerLoop_none_of_w_zero 0 0 0 1 1 0 0 1 (by norm_num) (by norm_num) (by norm_num)
        fuel []
  · have h3 : Real.sqrt 3 ^ 2 = 3 := Real.sq_sqrt (by norm_num)
    have h3nn : (0 : ℝ) ≤ Real.sqrt 3 := Real.sqrt_nonneg 3
    have h3pos : (0 : ℝ) < Real.sqrt 3 := Real.sqrt_pos.2 (by norm_num)
    have h18 : (1 : ℝ) / 8 ≤ Real.tan (Real.pi / 6) := by
      rw [Real.tan_pi_div_six, div_le_div_iff₀ (by norm_num) h3pos]
      nlinarith
    have hcond : ¬ (0 - 2 * ((2 * (-1 : ℝ)) * Real.tan (Real.pi / 6)) <
        1 + 2 * ((2 * (-1 : ℝ)) * Real.tan (Real.pi / 6))) := by
      push_neg
      linarith
    rw [calculate_polygons_as_outerLoop]
    show outerLoop _ _ _ _ _ _ _ (0 + 1) _ 1 [] = some []
    simp only [outerLoop, if_neg hcond]

/-- C5: the `site_id`s assigned by the tessellation's id-assignment loop are
strictly increasing in generation order, hence pairwise distinct with no id
reused. -/
theorem site_ids_strictly_increasing (polys : List (List (ℝ × ℝ))) :
    ((assign_site_ids polys).map Cell.site_id).Pairwise (· < ·) ∧
      ((assign_site_ids polys).map Cell.site_id).Nodup := by
  refine ⟨pairwise_lt_assignFrom polys 0, ?_⟩
  exact (pairwise_lt_assignFrom polys 0).imp (fun h => ne_of_lt h)

/-- C7 (counterexample): on an empty cell list the index build *succeeds*
(the insert loop does nothing) and the subsequent selection is performed; it
fails with Python's `IndexError` (from `list(...)[0]`), not with any
dedicated `EmptyTessellationError` — no such error exists in the code. -/
theorem empty_cells_build_succeeds_then_index_error :
    buildIndex ([] : List Cell) = [] ∧
      find_closest_cell_areas [] (0, 0) = Except.error PyErr.indexError := by
  constructor
  · rfl
  · simp [find_closest_cell_areas, buildIndex, nearest, withIdx]

/-- C7 (amended): for every transmitter point, selection over an empty cell
list fails with an `IndexError` raised by the element-0 access on the empty
result of the first nearest query; the index build itself succeeds. -/
theorem empty_cells_selection_index_error (t : ℝ × ℝ) :
    buildIndex ([] : List Cell) = [] ∧
      find_closest_cell_areas [] t = Except.error PyErr.indexError := by
  constructor
  · rfl
  · simp [find_closest_cell_areas, buildIndex, nearest, withIdx]

/-- C8: the pipeline is deterministic — with the projection collaborator
fixed, identical projected inputs (point and radius) and identical loop fuel
give identical outputs, `site_id` assignment, serving choice and interferer
order included; the embedding of the pipeline is a pure function of its
inputs (every step, the modelled R-tree tie-breaking included, is
deterministic). -/
theorem pipeline_deterministic (fuel : ℕ) (proj : ℝ × ℝ → ℝ × ℝ)
    (pt1 pt2 : ℝ × ℝ) (r1 r2 : ℝ) (hpt : pt1 = pt2) (hr : r1 = r2) :
    produce_sites_and_cell_areas fuel proj pt1 r1 =
      produce_sites_and_cell_areas fuel proj pt2 r2 := by
  rw [hpt, hr]

/-- C2: on a non-empty tessellation the selection succeeds and returns
exactly `min 6 (totalCells - 1)` interfering cells, none of which is the
serving cell; in particular it does not fail when fewer than 7 cells
exist. -/
theorem interferer_count (polys : List (List (ℝ × ℝ))) (t : ℝ × ℝ) (hne : polys ≠ []) :
    ∃ ca ia, find_closest_cell_areas (assign_site_ids polys) t = Except.ok (ca, ia) ∧
      ia.length = min 6 ((assign_site_ids polys).length - 1) ∧
      ∀ s ∈ ca, s ∉ ia := by
  obtain ⟨w, ia, hfc, -, -, -, -, -, -, hlen, hnot⟩ := find_closest_spec polys t hne
  refine ⟨[w], ia, hfc, hlen, ?_⟩
  intro s hs
  rcases List.mem_singleton.1 hs with rfl
  exact hnot

/-- Witness for C2: three unit-square cells, a transmitter at the origin,
`min 6 (3 - 1) = 2` interferers. -/
theorem interferer_count_witness :
    ([sqPolyA, sqPolyB, sqPolyC] : List (List (ℝ × ℝ))) ≠ [] ∧
      ∃ ca ia,
        find_closest_cell_areas (assign_site_ids [sqPolyA, sqPolyB, sqPolyC]) (0, 0) =
          Except.ok (ca, ia) ∧
        ia.length = min 6 ((assign_site_ids [sqPolyA, sqPolyB, sqPolyC]).length - 1) ∧
        ∀ s ∈ ca, s ∉ ia :=
  ⟨by simp, interferer_count [sqPolyA, sqPolyB, sqPolyC] (0, 0) (by simp)⟩

/-- C3: the serving cell returned for a non-empty tessellation has minimal
Euclidean centroid distance to the transmitter among all tessellated cells,
and whenever another cell's centroid is equidistant the serving cell has the
lower (or equal) `site_id`. -/
theorem serving_cell_nearest (polys : List (List (ℝ × ℝ))) (t : ℝ × ℝ) (hne : polys ≠ []) :
    ∃ w ia, find_closest_cell_areas (assign_site_ids polys) t = Except.ok ([w], ia) ∧
      (∀ c ∈ assign_site_ids polys, euclidDist w.centroid t ≤ euclidDist c.centroid t) ∧
      (∀ c ∈ assign_site_ids polys,
        euclidDist c.centroid t = euclidDist w.centroid t → w.site_id ≤ c.site_id) := by
  obtain ⟨w, ia, hfc, -, -, -, -, hmin, htie, -, -⟩ := find_closest_spec polys t hne
  refine ⟨w, ia, hfc, ?_, ?_⟩
  · intro c hc
    exact Real.sqrt_le_sqrt (hmin c hc)
  · intro c hc heq
    apply htie c hc
    have h2 := congrArg (fun x => x ^ 2) heq
    simpa [euclidDist, Real.sq_sqrt (sqDist_nonneg c.centroid t),
      Real.sq_sqrt (sqDist_nonneg w.centroid t)] using h2

/-- Witness for C3 at the three concrete unit-square cells. -/
theorem serving_cell_nearest_witness :
    ([sqPolyA, sqPolyB, sqPolyC] : List (List (ℝ × ℝ))) ≠ [] ∧
      ∃ w ia,
        find_closest_cell_areas (assign_site_ids [sqPolyA, sqPolyB, sqPolyC]) (1, 1) =
          Except.ok ([w], ia) ∧
        (∀ c ∈ assign_site_ids [sqPolyA, sqPolyB, sqPolyC],
          euclidDist w.centroid (1, 1) ≤ euclidDist c.centroid (1, 1)) ∧
        (∀ c ∈ assign_site_ids [sqPolyA, sqPolyB, sqPolyC],
          euclidDist c.centroid (1, 1) = euclidDist w.centroid (1, 1) →
            w.site_id ≤ c.site_id) :=
  ⟨by simp, serving_cell_nearest [sqPolyA, sqPolyB, sqPolyC] (1, 1) (by simp)⟩

/-- C10: the serving cell returned is element 0 of the second nearest query
(at the serving cell's own polygon centroid, `k = 7`), and — with pairwise
distinct centroids, as in a tessellation — that element is exactly the cell
found by the first query at the transmitter, so the overwrite on line 223
preserves the serving cell. -/
theorem serving_overwrite_preserved (polys : List (List (ℝ × ℝ))) (t : ℝ × ℝ)
    (hne : polys ≠ [])
    (_hcent : (((assign_site_ids polys)).map Cell.centroid).Nodup) :
    ∃ w ia, nearest (assign_site_ids polys) t 1 = [w] ∧
      (nearest (assign_site_ids polys) (polyCentroid w.poly) 7).head? = some w ∧
      find_closest_cell_areas (assign_site_ids polys) t = Except.ok ([w], ia) := by
  obtain ⟨w, ia, hfc, hn1, hh7, -, -, -, -, -, -⟩ := find_closest_spec polys t hne
  exact ⟨w, ia, hn1, hh7, hfc⟩

/-- The three unit-square cells have the expected (distinct) centroids. -/
lemma polyCentroid_sqPolyA : polyCentroid sqPolyA = (1 / 2, 1 / 2) := by
  norm_num [polyCentroid, ringArea2, sqPolyA, List.zip]

lemma polyCentroid_sqPolyB : polyCentroid sqPolyB = (9 / 2, 1 / 2) := by
  norm_num [polyCentroid, ringArea2, sqPolyB, List.zip]

lemma polyCentroid_sqPolyC : polyCentroid sqPolyC = (17 / 2, 1 / 2) := by
  norm_num [polyCentroid, ringArea2, sqPolyC, List.zip]

/-- Witness for C10: distinct concrete centroids, serving cell preserved. -/
theorem serving_overwrite_preserved_witness :
    ([sqPolyA, sqPolyB, sqPolyC] : List (List (ℝ × ℝ))) ≠ [] ∧
      ((assign_site_ids [sqPolyA, sqPolyB, sqPolyC]).map Cell.centroid).Nodup ∧
      ∃ w ia, nearest (assign_site_ids [sqPolyA, sqPolyB, sqPolyC]) (2, 0) 1 = [w] ∧
        (nearest (assign_site_ids [sqPolyA, sqPolyB, sqPolyC])
          (polyCentroid w.poly) 7).head? = some w ∧
        find_closest_cell_areas (assign_site_ids [sqPolyA, sqPolyB, sqPolyC]) (2, 0) =
          Except.ok ([w], ia) := by
  have hnodup : ((assign_site_ids [sqPolyA, sqPolyB, sqPolyC]).map Cell.centroid).Nodup := by
    simp only [assign_site_ids, assignFrom, List.map_cons, List.map_nil,
      polyCentroid_sqPolyA, polyCentroid_sqPolyB, polyCentroid_sqPolyC]
    norm_num [List.nodup_cons, Prod.ext_iff]
  exact ⟨by simp, hnodup,
    serving_overwrite_preserved [sqPolyA, sqPolyB, sqPolyC] (2, 0) (by simp) hnodup⟩

lemma radians_thirty : radians 30 = Real.pi / 6 := by
  unfold radians
  ring

lemma cos_radians_thirty : Real.cos (radians 30) = Real.sqrt 3 / 2 := by
  rw [radians_thirty, Real.cos_pi_div_six]

lemma tan_pi6_pos : 0 < Real.tan (Real.pi / 6) := by
  rw [Real.tan_pi_div_six]
  positivity

lemma cos_radians_thirty_pos : 0 < Real.cos (radians 30) := by
  rw [cos_radians_thirty]
  positivity

lemma sqrt_of_eq_sq {a s : ℝ} (hs : 0 ≤ s) (h : a = s ^ 2) : Real.sqrt a = s := by
  rw [h]
  exact Real.sqrt_sq hs

lemma hexRing_take_nodup (p b w h x y : ℝ) (hp : 0 < p) (hb : 0 < b)
    (hw : w = 2 * b) (hh : h = 4 * p) : ((hexRing p b w h x y).take 6).Nodup := by
  subst hw hh
  simp only [hexRing, List.take_succ_cons, List.take_zero]
  simp only [List.nodup_cons, List.mem_cons, List.mem_singleton, List.not_mem_nil, or_false,
    not_or, List.nodup_nil, and_true, Prod.mk.injEq, not_and]
  repeat' apply And.intro
  all_goals first
    | trivial
    | (intros; nlinarith)

lemma hexRing_edges (p b w h x y s : ℝ) (hs : 0 ≤ s) (hp : p = s * 0.5) (hw : w = 2 * b)
    (hh : h = 2 * s) (hb2 : b ^ 2 + p ^ 2 = s ^ 2) :
    ∀ ab ∈ (hexRing p b w h x y).zip (hexRing p b w h x y).tail,
      euclidDist ab.1 ab.2 = s := by
  subst hp hw hh
  intro ab hab
  simp only [hexRing, List.tail_cons, List.zip_cons_cons, List.zip_nil_right,
    List.mem_cons, List.not_mem_nil, or_false] at hab
  rcases hab with rfl | rfl | rfl | rfl | rfl | rfl <;>
    exact sqrt_of_eq_sq hs
      (by simp only [sqDist]; first | linear_combination | linear_combination hb2)

/-- C4: for every positive radius and non-degenerate rectangle, every
polygon produced by the tessellator is a closed 7-vertex ring (last vertex
equal to the first) with 6 pairwise distinct corners, and each of its 6
edges has length exactly `2 * radius * tan(π/6)` (the claim's "within
floating tolerance" becomes exact equality in the real-number model). -/
theorem hexagons_are_wellformed_rings (fuel : ℕ) (minX minY maxX maxY r : ℝ)
    (polys : List (List (ℝ × ℝ))) (poly : List (ℝ × ℝ)) (hr : 0 < r)
    (_hx : minX < maxX) (_hy : minY < maxY)
    (hrun : calculate_polygons fuel minX minY maxX maxY r = some polys)
    (hmem : poly ∈ polys) :
    poly.length = 7 ∧ poly.head? = poly.getLast? ∧ (poly.take 6).Nodup ∧
      ∀ ab ∈ poly.zip poly.tail, euclidDist ab.1 ab.2 = (2 * r) * Real.tan (Real.pi / 6) := by
  rw [calculate_polygons_as_outerLoop] at hrun
  have hshape := outerLoop_shape
    ((2 * r) * Real.tan (Real.pi / 6) * 0.5)
    ((2 * r) * Real.tan (Real.pi / 6) * Real.cos (radians 30))
    ((2 * r) * Real.tan (Real.pi / 6) * Real.cos (radians 30) * 2)
    (2 * ((2 * r) * Real.tan (Real.pi / 6)))
    (maxX + (2 * r) * Real.tan (Real.pi / 6) * Real.cos (radians 30) * 2)
    (maxY + 2 * ((2 * r) * Real.tan (Real.pi / 6)))
    (minX - (2 * r) * Real.tan (Real.pi / 6) * Real.cos (radians 30) * 2)
    fuel (minY - 2 * ((2 * r) * Real.tan (Real.pi / 6))) 1 [] polys hrun poly hmem
  rcases hshape with hin | ⟨x, y, rfl⟩
  · simp at hin
  have htan : 0 < Real.tan (Real.pi / 6) := tan_pi6_pos
  have hcos : 0 < Real.cos (radians 30) := cos_radians_thirty_pos
  have hslp : 0 < (2 * r) * Real.tan (Real.pi / 6) := mul_pos (by linarith) htan
  have hpp : 0 < (2 * r) * Real.tan (Real.pi / 6) * 0.5 := mul_pos hslp (by norm_num)
  have hbp : 0 < (2 * r) * Real.tan (Real.pi / 6) * Real.cos (radians 30) := mul_pos hslp hcos
  have hb2 : ((2 * r) * Real.tan (Real.pi / 6) * Real.cos (radians 30)) ^ 2 +
      ((2 * r) * Real.tan (Real.pi / 6) * 0.5) ^ 2 = ((2 * r) * Real.tan (Real.pi / 6)) ^ 2 := by
    rw [cos_radians_thirty]
    linear_combination (((2 * r) * Real.tan (Real.pi / 6)) ^ 2 / 4) *
      Real.sq_sqrt (show (0 : ℝ) ≤ 3 by norm_num)
  refine ⟨by simp [hexRing], by simp [hexRing], ?_, ?_⟩
  · exact hexRing_take_nodup _ _ _ _ x y hpp hbp (by ring) (by ring)
  · exact hexRing_edges _ _ _ _ x y _ hslp.le rfl (by ring) rfl hb2

/-- Witness for C4: a terminating concrete tessellation (radius 1,
rectangle `(0,0)-(1,1)`, fuel 10) with a concrete member polygon. -/
theorem hexagons_are_wellformed_rings_witness :
    ∃ polys poly, calculate_polygons 10 0 0 1 1 1 = some polys ∧ poly ∈ polys ∧
      (poly.length = 7 ∧ poly.head? = poly.getLast? ∧ (poly.take 6).Nodup ∧
        ∀ ab ∈ poly.zip poly.tail,
          euclidDist ab.1 ab.2 = (2 * 1) * Real.tan (Real.pi / 6)) := by
  have h3 : Real.sqrt 3 ^ 2 = 3 := Real.sq_sqrt (by norm_num)
  have h3nn : (0 : ℝ) ≤ Real.sqrt 3 := Real.sqrt_nonneg 3
  have h3pos : (0 : ℝ) < Real.sqrt 3 := Real.sqrt_pos.2 (by norm_num)
  have htan : 0 < Real.tan (Real.pi / 6) := tan_pi6_pos
  have hcos : 0 < Real.cos (radians 30) := cos_radians_thirty_pos
  have hslp : 0 < (2 * (1 : ℝ)) * Real.tan (Real.pi / 6) := mul_pos (by norm_num) htan
  have hsl_eq : (2 * (1 : ℝ)) * Real.tan (Real.pi / 6) * Real.sqrt 3 = 2 := by
    rw [Real.tan_pi_div_six]
    field_simp
  have hb1 : (2 * (1 : ℝ)) * Real.tan (Real.pi / 6) * Real.cos (radians 30) = 1 := by
    rw [cos_radians_thirty]
    linear_combination hsl_eq / 2
  have hsl_ge : (1 : ℝ) ≤ 2 * ((2 * (1 : ℝ)) * Real.tan (Real.pi / 6)) := by
    nlinarith [hsl_eq, h3, h3nn, hslp]
  have hcol1 : (1 : ℝ) + (2 * (1 : ℝ)) * Real.tan (Real.pi / 6) * Real.cos (radians 30) * 2 ≤
      (0 - (2 * (1 : ℝ)) * Real.tan (Real.pi / 6) * Real.cos (radians 30) * 2) +
        (3 : ℕ) * ((2 * (1 : ℝ)) * Real.tan (Real.pi / 6) * Real.cos (radians 30) * 2) := by
    push_cast
    linarith [hb1]
  have hcol2 : (1 : ℝ) + (2 * (1 : ℝ)) * Real.tan (Real.pi / 6) * Real.cos (radians 30) * 2 ≤
      (0 - (2 * (1 : ℝ)) * Real.tan (Real.pi / 6) * Real.cos (radians 30) * 2) +
        (2 * (1 : ℝ)) * Real.tan (Real.pi / 6) * Real.cos (radians 30) +
        (3 : ℕ) * ((2 * (1 : ℝ)) * Real.tan (Real.pi / 6) * Real.cos (radians 30) * 2) := by
    push_cast
    linarith [hb1]
  have hrow : (1 : ℝ) + 2 * ((2 * (1 : ℝ)) * Real.tan (Real.pi / 6)) ≤
      (0 - 2 * ((2 * (1 : ℝ)) * Real.tan (Real.pi / 6))) +
        (4 : ℕ) * (3 * ((2 * (1 : ℝ)) * Real.tan (Real.pi / 6) * 0.5)) := by
    push_cast
    linarith [hsl_ge]
  obtain ⟨polys, hrun⟩ := outerLoop_term
    ((2 * (1 : ℝ)) * Real.tan (Real.pi / 6) * 0.5)
    ((2 * (1 : ℝ)) * Real.tan (Real.pi / 6) * Real.cos (radians 30))
    ((2 * (1 : ℝ)) * Real.tan (Real.pi / 6) * Real.cos (radians 30) * 2)
    (2 * ((2 * (1 : ℝ)) * Real.tan (Real.pi / 6)))
    (1 + (2 * (1 : ℝ)) * Real.tan (Real.pi / 6) * Real.cos (radians 30) * 2)
    (1 + 2 * ((2 * (1 : ℝ)) * Real.tan (Real.pi / 6)))
    (0 - (2 * (1 : ℝ)) * Real.tan (Real.pi / 6) * Real.cos (radians 30) * 2)
    3 hcol1 hcol2 4 10
    (0 - 2 * ((2 * (1 : ℝ)) * Real.tan (Real.pi / 6))) 1 [] hrow (by norm_num)
  have hrun' : calculate_polygons 10 0 0 1 1 1 = some polys := by
    rw [calculate_polygons_as_outerLoop]
    exact hrun
  obtain ⟨-, hmem⟩ := outerLoop_mem
    ((2 * (1 : ℝ)) * Real.tan (Real.pi / 6) * 0.5)
    ((2 * (1 : ℝ)) * Real.tan (Real.pi / 6) * Real.cos (radians 30))
    ((2 * (1 : ℝ)) * Real.tan (Real.pi / 6) * Real.cos (radians 30) * 2)
    (2 * ((2 * (1 : ℝ)) * Real.tan (Real.pi / 6)))
    (1 + (2 * (1 : ℝ)) * Real.tan (Real.pi / 6) * Real.cos (radians 30) * 2)
    (1 + 2 * ((2 * (1 : ℝ)) * Real.tan (Real.pi / 6)))
    (0 - (2 * (1 : ℝ)) * Real.tan (Real.pi / 6) * Real.cos (radians 30) * 2)
    (by positivity) (by positivity) 10
    (0 - 2 * ((2 * (1 : ℝ)) * Real.tan (Real.pi / 6))) 1 [] polys hrun
  have h00 := hmem 0 0 ?_ ?_
  · exact ⟨polys, _, hrun', h00,
      hexagons_are_wellformed_rings 10 0 0 1 1 1 polys _ (by norm_num) (by norm_num)
        (by norm_num) hrun' h00⟩
  · simp only [Nat.cast_zero, zero_mul, add_zero]
    linarith [hslp]
  · have hif : rowStartX ((2 * (1 : ℝ)) * Real.tan (Real.pi / 6) * Real.cos (radians 30))
        (0 - (2 * (1 : ℝ)) * Real.tan (Real.pi / 6) * Real.cos (radians 30) * 2) (1 + 0) =
        0 - (2 * (1 : ℝ)) * Real.tan (Real.pi / 6) * Real.cos (radians 30) * 2 := rfl
    rw [hif]
    simp only [Nat.cast_zero, zero_mul, add_zero]
    linarith [mul_pos hslp hcos]

/-! ## Coverage: point-in-hexagon lemmas and the covering construction -/

lemma inHexagon_mid (p b x y qx qy : ℝ) (hp : 0 < p) (hb : 0 < b)
    (h1 : y + p ≤ qy) (h2 : qy ≤ y + 3 * p) (h3 : x ≤ qx) (h4 : qx ≤ x + 2 * b) :
    inHexagon p b x y (qx, qy) := by
  have e1 : 0 ≤ p * (qx - x) := mul_nonneg hp.le (by linarith)
  have e2 : p * (qx - x) ≤ p * (2 * b) := mul_le_mul_of_nonneg_left (by linarith) hp.le
  have e3 : b * p ≤ b * (qy - y) := mul_le_mul_of_nonneg_left (by linarith) hb.le
  have e4 : b * (qy - y) ≤ b * (3 * p) := mul_le_mul_of_nonneg_left (by linarith) hb.le
  exact ⟨h3, h4, by nlinarith, by nlinarith, by nlinarith, by nlinarith⟩

lemma inHexagon_topcap (p b x y qx qy : ℝ) (hp : 0 < p) (hb : 0 < b)
    (h1 : y + 3 * p ≤ qy) (h2 : qy ≤ y + 4 * p)
    (h5 : b * (qy - y - 3 * p) ≤ p * (qx - x))
    (h6 : b * (qy - y - 3 * p) ≤ p * (x + 2 * b - qx)) :
    inHexagon p b x y (qx, qy) := by
  have e0 : 0 ≤ b * (qy - y - 3 * p) := mul_nonneg hb.le (by linarith)
  have e3 : b * (3 * p) ≤ b * (qy - y) := mul_le_mul_of_nonneg_left (by linarith) hb.le
  have e4 : b * (qy - y) ≤ b * (4 * p) := mul_le_mul_of_nonneg_left (by linarith) hb.le
  refine ⟨by nlinarith, by nlinarith, by nlinarith, by nlinarith, by nlinarith, by nlinarith⟩

lemma inHexagon_botcap (p b x y qx qy : ℝ) (hp : 0 < p) (hb : 0 < b)
    (h1 : y ≤ qy) (h2 : qy ≤ y + p)
    (h5 : p * (qx - x - b) ≤ b * (qy - y))
    (h6 : p * (x + b - qx) ≤ b * (qy - y)) :
    inHexagon p b x y (qx, qy) := by
  have e0 : 0 ≤ b * (qy - y) := mul_nonneg hb.le (by linarith)
  have e1 : b * (qy - y) ≤ b * p := mul_le_mul_of_nonneg_left (by linarith) hb.le
  refine ⟨by nlinarith, by nlinarith, by nlinarith, by nlinarith, by nlinarith, by nlinarith⟩

lemma anchor_next_row_left (b X0 : ℝ) (k j : ℕ) (hj : (1 + k) % 2 = 1 → 1 ≤ j) :
    ∃ j' : ℕ, rowStartX b X0 (1 + (k + 1)) + j' * (2 * b) =
      (rowStartX b X0 (1 + k) + j * (2 * b)) - b := by
  by_cases hpar : (1 + k) % 2 = 0
  · have h1 : rowStartX b X0 (1 + k) = X0 + b := by simp [rowStartX, hpar]
    have h2 : (1 + (k + 1)) % 2 = 1 := by omega
    have h3 : rowStartX b X0 (1 + (k + 1)) = X0 := by simp [rowStartX, h2]
    exact ⟨j, by rw [h1, h3]; ring⟩
  · have hpar1 : (1 + k) % 2 = 1 := by omega
    have h1 : rowStartX b X0 (1 + k) = X0 := by simp [rowStartX, hpar1]
    have h2 : (1 + (k + 1)) % 2 = 0 := by omega
    have h3 : rowStartX b X0 (1 + (k + 1)) = X0 + b := by simp [rowStartX, h2]
    have hj1 : 1 ≤ j := hj hpar1
    refine ⟨j - 1, ?_⟩
    rw [h1, h3, Nat.cast_sub hj1]
    push_cast
    ring

lemma anchor_next_row_right (b X0 : ℝ) (k j : ℕ) :
    ∃ j' : ℕ, rowStartX b X0 (1 + (k + 1)) + j' * (2 * b) =
      (rowStartX b X0 (1 + k) + j * (2 * b)) + b := by
  by_cases hpar : (1 + k) % 2 = 0
  · have h1 : rowStartX b X0 (1 + k) = X0 + b := by simp [rowStartX, hpar]
    have h2 : (1 + (k + 1)) % 2 = 1 := by omega
    have h3 : rowStartX b X0 (1 + (k + 1)) = X0 := by simp [rowStartX, h2]
    refine ⟨j + 1, ?_⟩
    rw [h1, h3]
    push_cast
    ring
  · have hpar1 : (1 + k) % 2 = 1 := by omega
    have h1 : rowStartX b X0 (1 + k) = X0 := by simp [rowStartX, hpar1]
    have h2 : (1 + (k + 1)) % 2 = 0 := by omega
    have h3 : rowStartX b X0 (1 + (k + 1)) = X0 + b := by simp [rowStartX, h2]
    exact ⟨j, by rw [h1, h3]; ring⟩

lemma hex_cover_plane (p b X0 Y0 X1 Y1 qx qy : ℝ) (hp : 0 < p) (hb : 0 < b)
    (hx1 : X0 + 2 * b < qx) (hx2 : qx < X1) (hy1 : Y0 + 4 * p < qy) (hy2 : qy < Y1) :
    ∃ k j : ℕ, Y0 + k * (3 * p) < Y1 ∧ rowStartX b X0 (1 + k) + j * (2 * b) < X1 ∧
      inHexagon p b (rowStartX b X0 (1 + k) + j * (2 * b)) (Y0 + k * (3 * p)) (qx, qy) := by
  have h3p : (0 : ℝ) < 3 * p := by linarith
  have hW : (0 : ℝ) < 2 * b := by linarith
  -- row selection by floor
  have hKfl1 : (⌊(qy - Y0 - p) / (3 * p)⌋ : ℝ) * (3 * p) ≤ qy - Y0 - p := by
    have h := Int.floor_le ((qy - Y0 - p) / (3 * p))
    have h2 := mul_le_mul_of_nonneg_right h h3p.le
    rwa [div_mul_cancel₀ _ (ne_of_gt h3p)] at h2
  have hKfl2 : qy - Y0 - p < ((⌊(qy - Y0 - p) / (3 * p)⌋ : ℝ) + 1) * (3 * p) := by
    have h := Int.lt_floor_add_one ((qy - Y0 - p) / (3 * p))
    have h2 := mul_lt_mul_of_pos_right h h3p
    rwa [div_mul_cancel₀ _ (ne_of_gt h3p)] at h2
  have hK0 : 0 ≤ ⌊(qy - Y0 - p) / (3 * p)⌋ := by
    by_contra hneg
    push_neg at hneg
    have h1 : ⌊(qy - Y0 - p) / (3 * p)⌋ + 1 ≤ 0 := by omega
    have h2 : ((⌊(qy - Y0 - p) / (3 * p)⌋ : ℝ) + 1) ≤ 0 := by exact_mod_cast h1
    nlinarith
  obtain ⟨k, hkcast⟩ : ∃ k : ℕ, ((k : ℕ) : ℝ) = ((⌊(qy - Y0 - p) / (3 * p)⌋ : ℤ) : ℝ) :=
    ⟨⌊(qy - Y0 - p) / (3 * p)⌋.toNat, by exact_mod_cast Int.toNat_of_nonneg hK0⟩
  have hk1 : (k : ℝ) * (3 * p) ≤ qy - Y0 - p := by rw [hkcast]; exact hKfl1
  have hk2 : qy - Y0 - p < ((k : ℝ) + 1) * (3 * p) := by rw [hkcast]; exact hKfl2
  set yk : ℝ := Y0 + (k : ℝ) * (3 * p) with hyk
  have hy_lo : yk + p ≤ qy := by rw [hyk]; linarith
  have hy_hi : qy < yk + 4 * p := by rw [hyk]; linarith
  have hyk_lt : yk < Y1 := by linarith
  -- column selection on row k
  set S : ℝ := rowStartX b X0 (1 + k) with hS
  have hSle : S ≤ X0 + b := by
    rw [hS]
    unfold rowStartX
    split <;> linarith
  have hSge : X0 ≤ S := by
    rw [hS]
    unfold rowStartX
    split <;> linarith
  have hJ1 : (⌊(qx - S) / (2 * b)⌋ : ℝ) * (2 * b) ≤ qx - S := by
    have h := Int.floor_le ((qx - S) / (2 * b))
    have h2 := mul_le_mul_of_nonneg_right h hW.le
    rwa [div_mul_cancel₀ _ (ne_of_gt hW)] at h2
  have hJ2 : qx - S < ((⌊(qx - S) / (2 * b)⌋ : ℝ) + 1) * (2 * b) := by
    have h := Int.lt_floor_add_one ((qx - S) / (2 * b))
    have h2 := mul_lt_mul_of_pos_right h hW
    rwa [div_mul_cancel₀ _ (ne_of_gt hW)] at h2
  have hJ0 : 0 ≤ ⌊(qx - S) / (2 * b)⌋ := by
    by_contra hneg
    push_neg at hneg
    have h1 : ⌊(qx - S) / (2 * b)⌋ + 1 ≤ 0 := by omega
    have h2 : ((⌊(qx - S) / (2 * b)⌋ : ℝ) + 1) ≤ 0 := by exact_mod_cast h1
    nlinarith
  obtain ⟨j, hjcast⟩ : ∃ j : ℕ, ((j : ℕ) : ℝ) = ((⌊(qx - S) / (2 * b)⌋ : ℤ) : ℝ) :=
    ⟨⌊(qx - S) / (2 * b)⌋.toNat, by exact_mod_cast Int.toNat_of_nonneg hJ0⟩
  have hj1 : (j : ℝ) * (2 * b) ≤ qx - S := by rw [hjcast]; exact hJ1
  have hj2 : qx - S < ((j : ℝ) + 1) * (2 * b) := by rw [hjcast]; exact hJ2
  set x0 : ℝ := S + (j : ℝ) * (2 * b) with hx0
  have hx0_le : x0 ≤ qx := by rw [hx0]; linarith
  have hx0_lt : qx < x0 + 2 * b := by rw [hx0]; linarith
  have hjcond : (1 + k) % 2 = 1 → 1 ≤ j := by
    intro hpar1
    have hSX0 : S = X0 := by rw [hS]; simp [rowStartX, hpar1]
    have hgt : 2 * b < qx - S := by rw [hSX0]; linarith
    have hlt1 : 2 * b < ((j : ℝ) + 1) * (2 * b) := by linarith
    have hlt2 : (1 : ℝ) < (j : ℝ) + 1 := by
      by_contra hc
      push_neg at hc
      have := mul_le_mul_of_nonneg_right hc hW.le
      rw [one_mul] at this
      linarith
    have hj0r : (0 : ℝ) < (j : ℝ) := by linarith
    have hj0 : 0 < j := by exact_mod_cast hj0r
    omega
  by_cases hmid : qy ≤ yk + 3 * p
  · refine ⟨k, j, hyk_lt, by linarith, ?_⟩
    rw [← hx0, ← hyk]
    exact inHexagon_mid p b x0 yk qx qy hp hb hy_lo hmid hx0_le (by linarith)
  · push_neg at hmid
    have hycast : Y0 + ((k + 1 : ℕ) : ℝ) * (3 * p) = yk + 3 * p := by
      rw [hyk]
      push_cast
      ring
    have hy1lt : yk + 3 * p < Y1 := by linarith
    by_cases h2b : p * (qx - x0) < b * (qy - yk - 3 * p)
    · obtain ⟨j2, hj2eq⟩ := anchor_next_row_left b X0 k j hjcond
      rw [← hS, ← hx0] at hj2eq
      refine ⟨k + 1, j2, ?_, ?_, ?_⟩
      · rw [hycast]; exact hy1lt
      · rw [hj2eq]; linarith
      · rw [hj2eq, hycast]
        apply inHexagon_botcap p b (x0 - b) (yk + 3 * p) qx qy hp hb
          (by linarith) (by linarith)
        · have e : qx - (x0 - b) - b = qx - x0 := by ring
          rw [e]
          linarith [h2b]
        · have e : x0 - b + b - qx = x0 - qx := by ring
          rw [e]
          have e1 : p * (x0 - qx) ≤ 0 := mul_nonpos_of_nonneg_of_nonpos hp.le (by linarith)
          have e2 : 0 ≤ b * (qy - (yk + 3 * p)) := mul_nonneg hb.le (by linarith)
          linarith
    · push_neg at h2b
      by_cases h2c : p * (x0 + 2 * b - qx) < b * (qy - yk - 3 * p)
      · obtain ⟨j2, hj2eq⟩ := anchor_next_row_right b X0 k j
        rw [← hS, ← hx0] at hj2eq
        have hxlt : x0 + b < qx := by
          have ht_ub : b * (qy - yk - 3 * p) < b * p :=
            mul_lt_mul_of_pos_left (by linarith) hb
          have hlt : p * (x0 + 2 * b - qx) < p * b := by linarith
          have := (mul_lt_mul_left hp).1 hlt
          linarith
        refine ⟨k + 1, j2, ?_, ?_, ?_⟩
        · rw [hycast]; exact hy1lt
        · rw [hj2eq]; linarith
        · rw [hj2eq, hycast]
          apply inHexagon_botcap p b (x0 + b) (yk + 3 * p) qx qy hp hb
            (by linarith) (by linarith)
          · have e : qx - (x0 + b) - b = qx - (x0 + 2 * b) := by ring
            rw [e]
            have e1 : p * (qx - (x0 + 2 * b)) ≤ 0 :=
              mul_nonpos_of_nonneg_of_nonpos hp.le (by linarith)
            have e2 : 0 ≤ b * (qy - (yk + 3 * p)) := mul_nonneg hb.le (by linarith)
            linarith
          · have e : x0 + b + b - qx = x0 + 2 * b - qx := by ring
            rw [e]
            linarith [h2c]
      · push_neg at h2c
        refine ⟨k, j, hyk_lt, by linarith, ?_⟩
        rw [← hx0, ← hyk]
        exact inHexagon_topcap p b x0 yk qx qy hp hb (by linarith) (by linarith)
          (by linarith [h2b]) (by linarith [h2c])

/-- C6: for every point strictly inside the original (unexpanded) input
rectangle, some hexagon produced by a terminating run of the tessellator
contains it (containment = the six closed half-plane constraints of the
hexagon's ring); the outward expansion by one hexagon width and height
(lines 112–117) supplies exactly the margin the construction needs. -/
theorem tessellation_covers_original_rectangle (fuel : ℕ)
    (minX minY maxX maxY r qx qy : ℝ) (polys : List (List (ℝ × ℝ))) (hr : 0 < r)
    (hrun : calculate_polygons fuel minX minY maxX maxY r = some polys)
    (hq1 : minX < qx) (hq2 : qx < maxX) (hq3 : minY < qy) (hq4 : qy < maxY) :
    ∃ x y, hexRing ((2 * r) * Real.tan (Real.pi / 6) * 0.5)
        ((2 * r) * Real.tan (Real.pi / 6) * Real.cos (radians 30))
        ((2 * r) * Real.tan (Real.pi / 6) * Real.cos (radians 30) * 2)
        (2 * ((2 * r) * Real.tan (Real.pi / 6))) x y ∈ polys ∧
      inHexagon ((2 * r) * Real.tan (Real.pi / 6) * 0.5)
        ((2 * r) * Real.tan (Real.pi / 6) * Real.cos (radians 30)) x y (qx, qy) := by
  rw [calculate_polygons_as_outerLoop] at hrun
  have htan : 0 < Real.tan (Real.pi / 6) := tan_pi6_pos
  have hcos : 0 < Real.cos (radians 30) := cos_radians_thirty_pos
  have hslp : 0 < (2 * r) * Real.tan (Real.pi / 6) := mul_pos (by linarith) htan
  have hpp : 0 < (2 * r) * Real.tan (Real.pi / 6) * 0.5 := mul_pos hslp (by norm_num)
  have hbp : 0 < (2 * r) * Real.tan (Real.pi / 6) * Real.cos (radians 30) := mul_pos hslp hcos
  have hwp : 0 < (2 * r) * Real.tan (Real.pi / 6) * Real.cos (radians 30) * 2 := by linarith
  obtain ⟨-, hmem⟩ := outerLoop_mem
    ((2 * r) * Real.tan (Real.pi / 6) * 0.5)
    ((2 * r) * Real.tan (Real.pi / 6) * Real.cos (radians 30))
    ((2 * r) * Real.tan (Real.pi / 6) * Real.cos (radians 30) * 2)
    (2 * ((2 * r) * Real.tan (Real.pi / 6)))
    (maxX + (2 * r) * Real.tan (Real.pi / 6) * Real.cos (radians 30) * 2)
    (maxY + 2 * ((2 * r) * Real.tan (Real.pi / 6)))
    (minX - (2 * r) * Real.tan (Real.pi / 6) * Real.cos (radians 30) * 2)
    hpp.le hwp.le fuel
    (minY - 2 * ((2 * r) * Real.tan (Real.pi / 6))) 1 [] polys hrun
  obtain ⟨k, j, hky, hkx, hin⟩ := hex_cover_plane
    ((2 * r) * Real.tan (Real.pi / 6) * 0.5)
    ((2 * r) * Real.tan (Real.pi / 6) * Real.cos (radians 30))
    (minX - (2 * r) * Real.tan (Real.pi / 6) * Real.cos (radians 30) * 2)
    (minY - 2 * ((2 * r) * Real.tan (Real.pi / 6)))
    (maxX + (2 * r) * Real.tan (Real.pi / 6) * Real.cos (radians 30) * 2)
    (maxY + 2 * ((2 * r) * Real.tan (Real.pi / 6)))
    qx qy hpp hbp (by linarith) (by linarith) (by linarith) (by linarith)
  have hw2 : (2 : ℝ) * ((2 * r) * Real.tan (Real.pi / 6) * Real.cos (radians 30)) =
      (2 * r) * Real.tan (Real.pi / 6) * Real.cos (radians 30) * 2 := by ring
  rw [hw2] at hkx hin
  exact ⟨_, _, hmem k j hky hkx, hin⟩

/-- Shared concrete terminating run for the coverage witness: radius 1,
rectangle `(0,0)-(1,1)`, fuel 10. -/
lemma calc_polygons_radius_one_terminates :
    ∃ polys, calculate_polygons 10 0 0 1 1 1 = some polys := by
  have h3 : Real.sqrt 3 ^ 2 = 3 := Real.sq_sqrt (by norm_num)
  have h3nn : (0 : ℝ) ≤ Real.sqrt 3 := Real.sqrt_nonneg 3
  have htan : 0 < Real.tan (Real.pi / 6) := tan_pi6_pos
  have hslp : 0 < (2 * (1 : ℝ)) * Real.tan (Real.pi / 6) := mul_pos (by norm_num) htan
  have hsl_eq : (2 * (1 : ℝ)) * Real.tan (Real.pi / 6) * Real.sqrt 3 = 2 := by
    rw [Real.tan_pi_div_six]
    field_simp
  have hb1 : (2 * (1 : ℝ)) * Real.tan (Real.pi / 6) * Real.cos (radians 30) = 1 := by
    rw [cos_radians_thirty]
    linear_combination hsl_eq / 2
  have hsl_ge : (1 : ℝ) ≤ 2 * ((2 * (1 : ℝ)) * Real.tan (Real.pi / 6)) := by
    nlinarith [hsl_eq, h3, h3nn, hslp]
  have hcol1 : (1 : ℝ) + (2 * (1 : ℝ)) * Real.tan (Real.pi / 6) * Real.cos (radians 30) * 2 ≤
      (0 - (2 * (1 : ℝ)) * Real.tan (Real.pi / 6) * Real.cos (radians 30) * 2) +
        (3 : ℕ) * ((2 * (1 : ℝ)) * Real.tan (Real.pi / 6) * Real.cos (radians 30) * 2) := by
    push_cast
    linarith [hb1]
  have hcol2 : (1 : ℝ) + (2 * (1 : ℝ)) * Real.tan (Real.pi / 6) * Real.cos (radians 30) * 2 ≤
      (0 - (2 * (1 : ℝ)) * Real.tan (Real.pi / 6) * Real.cos (radians 30) * 2) +
        (2 * (1 : ℝ)) * Real.tan (Real.pi / 6) * Real.cos (radians 30) +
        (3 : ℕ) * ((2 * (1 : ℝ)) * Real.tan (Real.pi / 6) * Real.cos (radians 30) * 2) := by
    push_cast
    linarith [hb1]
  have hrow : (1 : ℝ) + 2 * ((2 * (1 : ℝ)) * Real.tan (Real.pi / 6)) ≤
      (0 - 2 * ((2 * (1 : ℝ)) * Real.tan (Real.pi / 6))) +
        (4 : ℕ) * (3 * ((2 * (1 : ℝ)) * Real.tan (Real.pi / 6) * 0.5)) := by
    push_cast
    linarith [hsl_ge]
  obtain ⟨polys, hrun⟩ := outerLoop_term
    ((2 * (1 : ℝ)) * Real.tan (Real.pi / 6) * 0.5)
    ((2 * (1 : ℝ)) * Real.tan (Real.pi / 6) * Real.cos (radians 30))
    ((2 * (1 : ℝ)) * Real.tan (Real.pi / 6) * Real.cos (radians 30) * 2)
    (2 * ((2 * (1 : ℝ)) * Real.tan (Real.pi / 6)))
    (1 + (2 * (1 : ℝ)) * Real.tan (Real.pi / 6) * Real.cos (radians 30) * 2)
    (1 + 2 * ((2 * (1 : ℝ)) * Real.tan (Real.pi / 6)))
    (0 - (2 * (1 : ℝ)) * Real.tan (Real.pi / 6) * Real.cos (radians 30) * 2)
    3 hcol1 hcol2 4 10
    (0 - 2 * ((2 * (1 : ℝ)) * Real.tan (Real.pi / 6))) 1 [] hrow (by norm_num)
  refine ⟨polys, ?_⟩
  rw [calculate_polygons_as_outerLoop]
  exact hrun

/-- Witness for C6: the point `(1/2, 1/2)` strictly inside the rectangle
`(0,0)-(1,1)` is covered by a hexagon of the concrete radius-1 run. -/
theorem tessellation_covers_witness :
    ∃ polys, calculate_polygons 10 0 0 1 1 1 = some polys ∧
      ∃ x y, hexRing ((2 * 1) * Real.tan (Real.pi / 6) * 0.5)
          ((2 * 1) * Real.tan (Real.pi / 6) * Real.cos (radians 30))
          ((2 * 1) * Real.tan (Real.pi / 6) * Real.cos (radians 30) * 2)
          (2 * ((2 * 1) * Real.tan (Real.pi / 6))) x y ∈ polys ∧
        inHexagon ((2 * 1) * Real.tan (Real.pi / 6) * 0.5)
          ((2 * 1) * Real.tan (Real.pi / 6) * Real.cos (radians 30)) x y (1 / 2, 1 / 2) := by
  obtain ⟨polys, hrun⟩ := calc_polygons_radius_one_terminates
  exact ⟨polys, hrun,
    tessellation_covers_original_rectangle 10 0 0 1 1 1 (1 / 2) (1 / 2) polys (by norm_num)
      hrun (by norm_num) (by norm_num) (by norm_num) (by norm_num)⟩

/-- C9: for every positive radius and every rectangle — the degenerate
point rectangle included — some fuel makes the tessellation loops
terminate with a non-empty polygon list (the outward expansion makes the
start coordinates strictly less than the end coordinates on both axes, so
both loops run at least once), and on the resulting non-empty cell list the
selection's element-0 accesses always succeed. -/
theorem tessellation_nonempty_and_selection_safe (r minX minY maxX maxY : ℝ)
    (hr : 0 < r) (hx : minX ≤ maxX) (hy : minY ≤ maxY) :
    ∃ fuel polys, calculate_polygons fuel minX minY maxX maxY r = some polys ∧
      polys ≠ [] ∧
      ∀ t : ℝ × ℝ, ∃ res,
        find_closest_cell_areas (assign_site_ids polys) t = Except.ok res := by
  have htan : 0 < Real.tan (Real.pi / 6) := tan_pi6_pos
  have hcos : 0 < Real.cos (radians 30) := cos_radians_thirty_pos
  have hslp : 0 < (2 * r) * Real.tan (Real.pi / 6) := mul_pos (by linarith) htan
  have hpp : 0 < (2 * r) * Real.tan (Real.pi / 6) * 0.5 := mul_pos hslp (by norm_num)
  have hbp : 0 < (2 * r) * Real.tan (Real.pi / 6) * Real.cos (radians 30) := mul_pos hslp hcos
  have hwp : 0 < (2 * r) * Real.tan (Real.pi / 6) * Real.cos (radians 30) * 2 := by linarith
  have hhp : 0 < 2 * ((2 * r) * Real.tan (Real.pi / 6)) := by linarith
  obtain ⟨NC, hNC⟩ := exists_nat_ge
    (((maxX + (2 * r) * Real.tan (Real.pi / 6) * Real.cos (radians 30) * 2) -
        (minX - (2 * r) * Real.tan (Real.pi / 6) * Real.cos (radians 30) * 2)) /
      ((2 * r) * Real.tan (Real.pi / 6) * Real.cos (radians 30) * 2))
  have hcol1 : maxX + (2 * r) * Real.tan (Real.pi / 6) * Real.cos (radians 30) * 2 ≤
      (minX - (2 * r) * Real.tan (Real.pi / 6) * Real.cos (radians 30) * 2) +
        NC * ((2 * r) * Real.tan (Real.pi / 6) * Real.cos (radians 30) * 2) := by
    have := (div_le_iff₀ hwp).1 hNC
    linarith
  have hcol2 : maxX + (2 * r) * Real.tan (Real.pi / 6) * Real.cos (radians 30) * 2 ≤
      (minX - (2 * r) * Real.tan (Real.pi / 6) * Real.cos (radians 30) * 2) +
        (2 * r) * Real.tan (Real.pi / 6) * Real.cos (radians 30) +
        NC * ((2 * r) * Real.tan (Real.pi / 6) * Real.cos (radians 30) * 2) := by
    linarith
  obtain ⟨NR, hNR⟩ := exists_nat_ge
    (((maxY + 2 * ((2 * r) * Real.tan (Real.pi / 6))) -
        (minY - 2 * ((2 * r) * Real.tan (Real.pi / 6)))) /
      (3 * ((2 * r) * Real.tan (Real.pi / 6) * 0.5)))
  have hrow : maxY + 2 * ((2 * r) * Real.tan (Real.pi / 6)) ≤
      (minY - 2 * ((2 * r) * Real.tan (Real.pi / 6))) +
        NR * (3 * ((2 * r) * Real.tan (Real.pi / 6) * 0.5)) := by
    have h3p : 0 < 3 * ((2 * r) * Real.tan (Real.pi / 6) * 0.5) := by linarith
    have := (div_le_iff₀ h3p).1 hNR
    linarith
  obtain ⟨polys, hrun⟩ := outerLoop_term
    ((2 * r) * Real.tan (Real.pi / 6) * 0.5)
    ((2 * r) * Real.tan (Real.pi / 6) * Real.cos (radians 30))
    ((2 * r) * Real.tan (Real.pi / 6) * Real.cos (radians 30) * 2)
    (2 * ((2 * r) * Real.tan (Real.pi / 6)))
    (maxX + (2 * r) * Real.tan (Real.pi / 6) * Real.cos (radians 30) * 2)
    (maxY + 2 * ((2 * r) * Real.tan (Real.pi / 6)))
    (minX - (2 * r) * Real.tan (Real.pi / 6) * Real.cos (radians 30) * 2)
    NC hcol1 hcol2 NR (NR + NC)
    (minY - 2 * ((2 * r) * Real.tan (Real.pi / 6))) 1 [] hrow (le_refl _)
  have hne : polys ≠ [] := by
    obtain ⟨-, hmem⟩ := outerLoop_mem
      ((2 * r) * Real.tan (Real.pi / 6) * 0.5)
      ((2 * r) * Real.tan (Real.pi / 6) * Real.cos (radians 30))
      ((2 * r) * Real.tan (Real.pi / 6) * Real.cos (radians 30) * 2)
      (2 * ((2 * r) * Real.tan (Real.pi / 6)))
      (maxX + (2 * r) * Real.tan (Real.pi / 6) * Real.cos (radians 30) * 2)
      (maxY + 2 * ((2 * r) * Real.tan (Real.pi / 6)))
      (minX - (2 * r) * Real.tan (Real.pi / 6) * Real.cos (radians 30) * 2)
      hpp.le hwp.le (NR + NC)
      (minY - 2 * ((2 * r) * Real.tan (Real.pi / 6))) 1 [] polys hrun
    refine List.ne_nil_of_mem (hmem 0 0 ?_ ?_)
    · simp only [Nat.cast_zero, zero_mul, add_zero]
      linarith
    · have hif : rowStartX (2 * r * Real.tan (Real.pi / 6) * Real.cos (radians 30))
          (minX - 2 * r * Real.tan (Real.pi / 6) * Real.cos (radians 30) * 2) (1 + 0) =
          minX - 2 * r * Real.tan (Real.pi / 6) * Real.cos (radians 30) * 2 := rfl
      rw [hif]
      simp only [Nat.cast_zero, zero_mul, add_zero]
      linarith
  refine ⟨NR + NC, polys, ?_, hne, ?_⟩
  · rw [calculate_polygons_as_outerLoop]
    exact hrun
  · intro t
    obtain ⟨wc, ia, hfc, -, -, -, -, -, -, -, -⟩ := find_closest_spec polys t hne
    exact ⟨([wc], ia), hfc⟩

/-- Witness for C9 at radius 1 and the degenerate point rectangle. -/
theorem tessellation_nonempty_witness :
    (0 : ℝ) < 1 ∧
      ∃ fuel polys, calculate_polygons fuel 0 0 0 0 1 = some polys ∧
        polys ≠ [] ∧
        ∀ t : ℝ × ℝ, ∃ res,
          find_closest_cell_areas (assign_site_ids polys) t = Except.ok res :=
  ⟨by norm_num,
    tessellation_nonempty_and_selection_safe 1 0 0 0 0 (by norm_num) le_rfl le_rfl⟩

/-- Witness for C8 at a concrete input. -/
theorem pipeline_deterministic_witness :
    ((0 : ℝ), (0 : ℝ)) = ((0 : ℝ), (0 : ℝ)) ∧ (750 : ℝ) = 750 ∧
      produce_sites_and_cell_areas 5 id (0, 0) 750 =
        produce_sites_and_cell_areas 5 id (0, 0) 750 :=
  ⟨rfl, rfl, pipeline_deterministic 5 id (0, 0) (0, 0) 750 750 rfl rfl⟩

end PySim5G
